import Mathlib

/-
Verification development for the two widgets of this repository:
a right-click context menu (src/native/context_menu.rs) and a resizable
split pane (src/native/split.rs).  The Rust code is shallowly embedded:
f32 values are modelled as rationals, u16 values as naturals below 65536
with explicit wrapping where the Rust arithmetic can wrap, fallible steps
(Rust panics) as Option, and the abstract host-framework children
(underlay, overlay content, first pane, second pane) as function
parameters whose results are observable.
-/

namespace IcedAw

/-- Model of iced core Point, with f32 coordinates embedded as rationals. -/
structure Point where
  x : ℚ
  y : ℚ
deriving DecidableEq

/-- Model of Point.ORIGIN, which is also the Default value of Point. -/
def Point.origin : Point := ⟨0, 0⟩

/-- Model of iced core Vector. -/
structure Vector where
  x : ℚ
  y : ℚ
deriving DecidableEq

/-- Model of Point + Vector addition used in ContextMenu.overlay. -/
def Point.addV (p : Point) (v : Vector) : Point := ⟨p.x + v.x, p.y + v.y⟩

/-- Model of iced core Size. -/
structure Size where
  width : ℚ
  height : ℚ
deriving DecidableEq

/-- Model of iced core Rectangle. -/
structure Rectangle where
  x : ℚ
  y : ℚ
  width : ℚ
  height : ℚ
deriving DecidableEq

/-- Model of Rectangle.contains: half-open containment test of iced core. -/
def Rectangle.contains (r : Rectangle) (p : Point) : Prop :=
  r.x ≤ p.x ∧ p.x < r.x + r.width ∧ r.y ≤ p.y ∧ p.y < r.y + r.height

instance (r : Rectangle) (p : Point) : Decidable (r.contains p) := by
  unfold Rectangle.contains; infer_instance

/-- Model of Rectangle.size. -/
def Rectangle.size (r : Rectangle) : Size := ⟨r.width, r.height⟩

/-- Model of an iced layout Node: a bounds rectangle plus child nodes. -/
structure Node where
  bounds : Rectangle
  children : List Node

/-- Model of Node.new: a childless node of the given size at the origin. -/
def Node.new (s : Size) : Node := ⟨⟨0, 0, s.width, s.height⟩, []⟩

/-- Model of Node.with_children. -/
def Node.withChildren (s : Size) (cs : List Node) : Node := ⟨⟨0, 0, s.width, s.height⟩, cs⟩

/-- Model of Node.move_to_mut: repositions the node, keeping its size. -/
def Node.moveTo (n : Node) (p : Point) : Node :=
  ⟨⟨p.x, p.y, n.bounds.width, n.bounds.height⟩, n.children⟩

/-- Model of layout Limits (minimum and maximum size). -/
structure Limits where
  minSize : Size
  maxSize : Size

/-- Model of Limits.shrink by a Size: both bounds shrink, floored at zero. -/
def Limits.shrink (l : Limits) (s : Size) : Limits :=
  ⟨⟨max (l.minSize.width - s.width) 0, max (l.minSize.height - s.height) 0⟩,
   ⟨max (l.maxSize.width - s.width) 0, max (l.maxSize.height - s.height) 0⟩⟩

/-- Model of Limits.shrink by a Padding built from a single u16 value p:
the Rust conversion Padding to Size yields (left + right, top + bottom),
here (2p, 2p). -/
def Limits.shrinkPadding (l : Limits) (p : ℕ) : Limits :=
  l.shrink ⟨(p : ℚ) + p, (p : ℚ) + p⟩

/-- Model of the Rust cast from f32 to u16 with the as operator:
truncation toward zero, saturating at 0 and 65535. -/
def ratToU16 (q : ℚ) : ℕ := min 65535 (Int.toNat ⌊q⌋)

/-- Wrapping u16 subtraction (release-mode Rust semantics) for operands
below 65536. -/
def sub16 (a b : ℕ) : ℕ := (a + 65536 - b) % 65536

/-- Wrapping u16 addition (release-mode Rust semantics). -/
def wrap16 (n : ℕ) : ℕ := n % 65536

/-- Model of u16 Ord::clamp, which panics (None) when the lower bound
exceeds the upper bound. -/
def clampU16 (v lo hi : ℕ) : Option ℕ :=
  if lo ≤ hi then some (if v < lo then lo else if hi < v then hi else v) else none

/-- Model of the iced mouse buttons that the two widgets inspect. -/
inductive MouseButton where
  | left
  | right
  | middle
deriving DecidableEq

/-- Model of the iced events that the two widgets inspect: mouse button
presses and releases, cursor moves, and the touch events.  Other events
are collapsed into the constructor other. -/
inductive Event where
  | buttonPressed (b : MouseButton)
  | buttonReleased (b : MouseButton)
  | cursorMoved (position : Point)
  | fingerPressed (position : Point)
  | fingerLifted (position : Point)
  | fingerMoved (position : Point)
  | other
deriving DecidableEq

/-- Model of iced event::Status. -/
inductive Status where
  | ignored
  | captured
deriving DecidableEq

/-- Model of event::Status::merge: Captured wins. -/
def Status.merge : Status → Status → Status
  | .ignored, b => b
  | .captured, _ => .captured

/-- Model of mouse::Cursor as the optional available position; the method
position() of Cursor returns this Option directly. -/
abbrev Cursor : Type := Option Point

/-- Model of Cursor.is_over: false when the cursor is unavailable. -/
def cursorIsOver (c : Cursor) (bounds : Rectangle) : Bool :=
  match c with
  | some p => decide (bounds.contains p)
  | none => false

namespace ContextMenu

/-- Model of the per-node State of the context menu
(src/native/context_menu.rs, struct State).  The Rust field show is named
showMenu here because show is a Lean keyword. -/
structure State where
  showMenu : Bool
  cursorPosition : Point
deriving DecidableEq

/-- Model of State::new. -/
def State.new : State := ⟨false, Point.origin⟩

/-- Model of ContextMenu::layout (src/native/context_menu.rs lines 99 to
103).  The Rust method always lays out the underlay with state child 0;
it never consults the State stored in the tree, so the state argument is
unused.  The two closures stand for the layout methods of the underlay
widget (tree child 0) and of the element produced by the overlay closure
(tree child 1). -/
def layout (_state : State) (underlayLayout _overlayLayout : Limits → Node)
    (limits : Limits) : Node :=
  underlayLayout limits

/-- Model of ContextMenu::draw (src/native/context_menu.rs lines 105 to
124).  The Rust method always draws the underlay with state child 0; the
two arguments stand for the observable drawing effect of the underlay and
of the overlay content. -/
def draw {α : Type} (_state : State) (underlayDraw _overlayDraw : α) : α :=
  underlayDraw

/-- Model of ContextMenu::operate (src/native/context_menu.rs lines 142
to 163): when show is set the operation runs on the overlay content with
state child 1 (after diffing it), otherwise on the underlay with state
child 0.  The two arguments stand for the observable effect of operating
on either subtree. -/
def operate {α : Type} (s : State) (underlayOperate overlayOperate : α) : α :=
  if s.showMenu then overlayOperate else underlayOperate

/-- Outcome of one ContextMenu::on_event step: the new state, the event
forwarded to the underlay (none when the event was consumed), and the
returned status. -/
structure EventOutcome where
  state : State
  forwarded : Option Event
  status : Status
deriving DecidableEq

/-- Model of ContextMenu::on_event (src/native/context_menu.rs lines 165
to 197).  On a right mouse press with the cursor over the layout bounds
the state is mutated and Captured is returned; every other case forwards
the event unchanged to the underlay and returns the underlay status,
which is supplied here as an abstract argument. -/
def on_event (s : State) (bounds : Rectangle) (cursor : Cursor) (ev : Event)
    (underlayStatus : Status) : EventOutcome :=
  if ev = Event.buttonPressed MouseButton.right ∧ cursorIsOver cursor bounds = true then
    { state := { showMenu := !s.showMenu, cursorPosition := cursor.getD Point.origin }
      forwarded := none
      status := Status.captured }
  else
    { state := s, forwarded := some ev, status := underlayStatus }

/-- Result of ContextMenu::overlay: either the overlay of the underlay
widget (delegation) or the context menu overlay at a given position. -/
inductive OverlayChoice (α : Type) where
  | fromUnderlay (o : α)
  | menuAt (position : Point)
deriving DecidableEq

/-- Model of ContextMenu::overlay (src/native/context_menu.rs lines 216
to 244).  When show is false the call is delegated to the underlay with
state child 0; otherwise the context menu overlay is produced at the
recorded cursor position translated by the host-supplied vector, using
the overlay closure and state child 1. -/
def overlay {α : Type} (s : State) (translation : Vector)
    (underlayOverlay : Option α) : Option (OverlayChoice α) :=
  if s.showMenu = false then underlayOverlay.map OverlayChoice.fromUnderlay
  else some (OverlayChoice.menuAt (s.cursorPosition.addV translation))

end ContextMenu

/-- Model of the axis enum of the split widget (src/native/split.rs). -/
inductive Axis where
  | horizontal
  | vertical
deriving DecidableEq

/-- Coordinate of a point along the split axis: y for Horizontal splits
and x for Vertical splits, as in Split::on_event. -/
def coordAlong (axis : Axis) (p : Point) : ℚ :=
  match axis with
  | .horizontal => p.y
  | .vertical => p.x

namespace Split

/-- Model of the configuration fields of the Split struct that the layout
and event code reads (src/native/split.rs lines 43 to 73).  The child
elements, the width and height Length values, the resize callback and the
style are abstracted away; u16 fields are naturals below 65536. -/
structure Params where
  dividerPosition : Option ℕ
  axis : Axis
  padding : ℚ
  spacing : ℚ
  minSizeFirst : ℕ
  minSizeSecond : ℕ

/-- Model of the per-node SplitState (src/native/split.rs lines 697 to
701): only the dragging flag. -/
structure SplitState where
  dragging : Bool
deriving DecidableEq

/-- Model of SplitState::new. -/
def SplitState.new : SplitState := ⟨false⟩

/-- Fallback node of horizontal_split for undersized containers
(src/native/split.rs lines 538 to 557): both panes are laid out against
shrunk limits and stacked with a nominal divider, with no clamping.  The
divider size quirk (height used as the width of the divider node) is the
code as written. -/
def horizontalStack (p : Params) (firstLayout secondLayout : Limits → Node)
    (limits : Limits) (space : Node) : Node :=
  Node.withChildren space.bounds.size
    [ firstLayout (limits.shrink ⟨0, space.bounds.height⟩),
      Node.new ⟨space.bounds.height, p.spacing⟩,
      secondLayout (limits.shrink ⟨0, space.bounds.width⟩) ]

/-- Model of horizontal_split (src/native/split.rs lines 527 to 603).
The result is none exactly when the Rust code panics (the clamp call with
a lower bound above the upper bound); the u16 additions and subtractions
wrap as in release builds. -/
def horizontal_split (p : Params) (firstLayout secondLayout : Limits → Node)
    (limits : Limits) (space : Node) : Option Node :=
  if space.bounds.height < p.spacing + (wrap16 (p.minSizeFirst + p.minSizeSecond) : ℚ) then
    some (horizontalStack p firstLayout secondLayout limits space)
  else
    let dp0 := max ((p.dividerPosition.getD (ratToU16 (space.bounds.height / 2))))
      (ratToU16 (p.spacing / 2))
    let dp1 := sub16 dp0 (ratToU16 (p.spacing / 2))
    match clampU16 dp1 p.minSizeFirst
        (sub16 (sub16 (ratToU16 space.bounds.height) p.minSizeSecond) (ratToU16 p.spacing)) with
    | none => none
    | some dividerPosition =>
      let pad := ratToU16 p.padding
      let firstLimits :=
        (limits.shrink ⟨0, space.bounds.height - (dividerPosition : ℚ)⟩).shrinkPadding pad
      let first := (firstLayout firstLimits).moveTo
        ⟨space.bounds.x + p.padding, space.bounds.y + p.padding⟩
      let divider := (Node.new ⟨space.bounds.width, p.spacing⟩).moveTo
        ⟨space.bounds.x, (dividerPosition : ℚ)⟩
      let secondLimits :=
        (limits.shrink ⟨0, (dividerPosition : ℚ) + p.spacing⟩).shrinkPadding pad
      let second := (secondLayout secondLimits).moveTo
        ⟨space.bounds.x + p.padding,
         space.bounds.y + (dividerPosition : ℚ) + p.spacing + p.padding⟩
      some (Node.withChildren space.bounds.size [first, divider, second])

/-- Fallback node of vertical_split for undersized containers
(src/native/split.rs lines 617 to 635); both pane limits shrink by the
container width, as in the code. -/
def verticalStack (p : Params) (firstLayout secondLayout : Limits → Node)
    (limits : Limits) (space : Node) : Node :=
  Node.withChildren space.bounds.size
    [ firstLayout (limits.shrink ⟨space.bounds.width, 0⟩),
      Node.new ⟨p.spacing, space.bounds.height⟩,
      secondLayout (limits.shrink ⟨space.bounds.width, 0⟩) ]

/-- Model of vertical_split (src/native/split.rs lines 606 to 682),
mirror image of horizontal_split along the x axis. -/
def vertical_split (p : Params) (firstLayout secondLayout : Limits → Node)
    (limits : Limits) (space : Node) : Option Node :=
  if space.bounds.width < p.spacing + (wrap16 (p.minSizeFirst + p.minSizeSecond) : ℚ) then
    some (verticalStack p firstLayout secondLayout limits space)
  else
    let dp0 := max ((p.dividerPosition.getD (ratToU16 (space.bounds.width / 2))))
      (ratToU16 (p.spacing / 2))
    let dp1 := sub16 dp0 (ratToU16 (p.spacing / 2))
    match clampU16 dp1 p.minSizeFirst
        (sub16 (sub16 (ratToU16 space.bounds.width) p.minSizeSecond) (ratToU16 p.spacing)) with
    | none => none
    | some dividerPosition =>
      let pad := ratToU16 p.padding
      let firstLimits :=
        (limits.shrink ⟨space.bounds.width - (dividerPosition : ℚ), 0⟩).shrinkPadding pad
      let first := (firstLayout firstLimits).moveTo
        ⟨space.bounds.x + p.padding, space.bounds.y + p.padding⟩
      let divider := (Node.new ⟨p.spacing, space.bounds.height⟩).moveTo
        ⟨(dividerPosition : ℚ), space.bounds.y⟩
      let secondLimits :=
        (limits.shrink ⟨(dividerPosition : ℚ) + p.spacing, 0⟩).shrinkPadding pad
      let second := (secondLayout secondLimits).moveTo
        ⟨space.bounds.x + (dividerPosition : ℚ) + p.spacing + p.padding,
         space.bounds.y + p.padding⟩
      some (Node.withChildren space.bounds.size [first, divider, second])

/-- Model of the axis dispatch in Split::layout (src/native/split.rs
lines 200 to 210).  The space node (the layout of the empty Fill by Fill
Row against the given limits) is passed in explicitly. -/
def layout (p : Params) (firstLayout secondLayout : Limits → Node)
    (limits : Limits) (space : Node) : Option Node :=
  match p.axis with
  | .horizontal => horizontal_split p firstLayout secondLayout limits space
  | .vertical => vertical_split p firstLayout secondLayout limits space

/-- Size of the space node along the split axis, the quantity the
threshold test of the two split functions inspects. -/
def sizeAlong (axis : Axis) (space : Node) : ℚ :=
  match axis with
  | .horizontal => space.bounds.height
  | .vertical => space.bounds.width

/-- Coordinate of the divider child (child index 1) of a layout node
along the split axis: its y position for Horizontal splits, its x
position for Vertical splits. -/
def dividerCoord (axis : Axis) (n : Node) : Option ℚ :=
  n.children[1]?.map (fun d => coordAlong axis ⟨d.bounds.x, d.bounds.y⟩)

/-- Observable step of Split::on_event, recorded in program order: the
event handed to the first pane, resize messages published by the divider
handling (as the u16 argument given to the on_resize callback), and the
event handed to the second pane. -/
inductive Action where
  | toFirst (ev : Event)
  | publish (msg : ℕ)
  | toSecond (ev : Event)
deriving DecidableEq

/-- Model of the divider match in Split::on_event (src/native/split.rs
lines 243 to 274): returns the new dragging flag and the list of resize
messages published.  Presses compare the divider bounds against the
cursor position defaulted to the origin; moves publish the u16 cast of
the move coordinate along the axis while dragging. -/
def dividerOnEvent (axis : Axis) (dividerBounds : Rectangle) (cursor : Cursor)
    (dragging : Bool) (ev : Event) : Bool × List ℕ :=
  match ev with
  | .buttonPressed .left | .fingerPressed _ =>
    if dividerBounds.contains (cursor.getD Point.origin) then (true, []) else (dragging, [])
  | .buttonReleased .left | .fingerLifted _ =>
    (if dragging then false else dragging, [])
  | .cursorMoved q | .fingerMoved q =>
    if dragging then (dragging, [ratToU16 (coordAlong axis q)]) else (dragging, [])
  | _ => (dragging, [])

/-- Result of one Split::on_event step: the new dragging flag, the trace
of observable actions in program order, and the returned status. -/
structure EventResult where
  dragging : Bool
  trace : List Action
  status : Status
deriving DecidableEq

/-- Model of Split::on_event (src/native/split.rs lines 212 to 291): the
event goes to the first pane, then the divider handling runs, then the
event goes to the second pane, and the merge of the two pane statuses
(supplied as abstract arguments) is returned. -/
def on_event (axis : Axis) (dividerBounds : Rectangle) (cursor : Cursor)
    (dragging : Bool) (ev : Event) (firstStatus secondStatus : Status) : EventResult :=
  let d := dividerOnEvent axis dividerBounds cursor dragging ev
  { dragging := d.1
    trace := Action.toFirst ev :: (d.2.map Action.publish ++ [Action.toSecond ev])
    status := firstStatus.merge secondStatus }

end Split

/-- Characterization of the u16 cast on a rational known to lie in a unit
interval below the saturation bound. -/
lemma ratToU16_eq (q : ℚ) (n : ℕ) (h1 : (n : ℚ) ≤ q) (h2 : q < n + 1) (h3 : n ≤ 65535) :
    ratToU16 q = n := by
  have hf : ⌊q⌋ = (n : ℤ) := by
    rw [Int.floor_eq_iff]
    exact ⟨by exact_mod_cast h1, by exact_mod_cast h2⟩
  unfold ratToU16
  rw [hf]
  omega

/-- Wrapping u16 subtraction agrees with truncated subtraction when it
cannot underflow. -/
lemma sub16_eq (a b : ℕ) (hb : b ≤ a) (ha : a < 65536) : sub16 a b = a - b := by
  unfold sub16; omega

/-- The u16 cast never exceeds the u16 maximum. -/
lemma ratToU16_le (q : ℚ) : ratToU16 q ≤ 65535 := Nat.min_le_left _ _

/-- Below the saturation bound the u16 cast is the floor. -/
lemma ratToU16_eq_toNat_floor (q : ℚ) (h1 : q < 65536) : ratToU16 q = Int.toNat ⌊q⌋ := by
  have h2 : (⌊q⌋ : ℚ) ≤ q := Int.floor_le q
  have h3 : (⌊q⌋ : ℚ) < 65536 := lt_of_le_of_lt h2 h1
  have h4 : ⌊q⌋ < 65536 := by exact_mod_cast h3
  unfold ratToU16
  omega

/-- Key arithmetic fact for the split layout: when the container size h
is at least spacing + minimum sizes and fits in u16 range, the truncated
size leaves room for both minimum sizes and the truncated spacing. -/
lemma threshold_le (sp h : ℚ) (mf ms : ℕ) (hsp : 0 ≤ sp) (hge : sp + mf + ms ≤ h)
    (hlt : h < 65536) : mf + ms + ratToU16 sp ≤ ratToU16 h := by
  have h1 : (⌊sp⌋ : ℤ) + mf + ms ≤ ⌊h⌋ := by
    have h2 : ⌊sp + mf + ms⌋ ≤ ⌊h⌋ := Int.floor_le_floor hge
    have h3 : ⌊sp + (mf + ms : ℕ)⌋ = ⌊sp⌋ + (mf + ms : ℕ) := Int.floor_add_nat sp (mf + ms)
    have h4 : sp + ((mf + ms : ℕ) : ℚ) = sp + mf + ms := by push_cast; ring
    rw [h4] at h3
    omega
  have hsp0 : 0 ≤ ⌊sp⌋ := Int.floor_nonneg.mpr hsp
  have hff : (⌊h⌋ : ℚ) ≤ h := Int.floor_le h
  have hh : ⌊h⌋ < 65536 := by
    have : (⌊h⌋ : ℚ) < 65536 := lt_of_le_of_lt hff hlt
    exact_mod_cast this
  unfold ratToU16
  omega

/-- Specification of the clamp model when the bounds are ordered: the
call succeeds and the result lies between the bounds. -/
lemma clampU16_spec (v lo hi : ℕ) (h : lo ≤ hi) :
    ∃ c, clampU16 v lo hi = some c ∧ lo ≤ c ∧ c ≤ hi := by
  refine ⟨_, by rw [clampU16, if_pos h], ?_, ?_⟩ <;> dsimp <;> split <;> try split
  all_goals omega

/-- Value of the clamp model when the bounds are ordered. -/
lemma clampU16_eq (v lo hi : ℕ) (h : lo ≤ hi) :
    clampU16 v lo hi = some (max lo (min v hi)) := by
  rw [clampU16, if_pos h]
  congr 1
  split <;> try split
  all_goals omega

namespace Split

/-- Helper: starting from a non-dragging state, the divider handling sets
the dragging flag only for a left mouse press or a finger press whose
defaulted cursor position lies inside the divider bounds. -/
lemma dividerOnEvent_start (axis : Axis) (db : Rectangle) (cursor : Cursor) (ev : Event)
    (h : (dividerOnEvent axis db cursor false ev).1 = true) :
    (ev = .buttonPressed .left ∨ ∃ q, ev = .fingerPressed q) ∧
      db.contains (cursor.getD Point.origin) := by
  cases ev with
  | buttonPressed b =>
    cases b with
    | left =>
      by_cases hc : db.contains (cursor.getD Point.origin)
      · exact ⟨Or.inl rfl, hc⟩
      · simp [dividerOnEvent, hc] at h
    | right => simp [dividerOnEvent] at h
    | middle => simp [dividerOnEvent] at h
  | fingerPressed q =>
    by_cases hc : db.contains (cursor.getD Point.origin)
    · exact ⟨Or.inr ⟨q, rfl⟩, hc⟩
    · simp [dividerOnEvent, hc] at h
  | buttonReleased b => cases b <;> simp [dividerOnEvent] at h
  | fingerLifted q => simp [dividerOnEvent] at h
  | cursorMoved q => simp [dividerOnEvent] at h
  | fingerMoved q => simp [dividerOnEvent] at h
  | other => simp [dividerOnEvent] at h

/-- Helper: a left release or a finger lift always leaves the dragging
flag false. -/
lemma dividerOnEvent_release (axis : Axis) (db : Rectangle) (cursor : Cursor)
    (drag : Bool) (ev : Event)
    (hev : ev = .buttonReleased .left ∨ ∃ q, ev = .fingerLifted q) :
    (dividerOnEvent axis db cursor drag ev).1 = false := by
  rcases hev with h | ⟨q, h⟩ <;> subst h <;> cases drag <;> simp [dividerOnEvent]

/-- Helper: while dragging, a cursor move or finger move publishes the
single resize message carrying the u16 cast of the coordinate along the
split axis. -/
lemma dividerOnEvent_move (axis : Axis) (db : Rectangle) (cursor : Cursor)
    (q : Point) (ev : Event) (hev : ev = .cursorMoved q ∨ ev = .fingerMoved q) :
    (dividerOnEvent axis db cursor true ev).2 = [ratToU16 (coordAlong axis q)] := by
  rcases hev with h | h <;> subst h <;> simp [dividerOnEvent]

end Split

/-- Claim C10 (confirmed): Split::on_event hands the unchanged event to
the first pane before the divider handling and to the second pane after
it, returns the merge of the two pane statuses, and the divider handling
never turns two Ignored pane statuses into Captured. -/
theorem split_on_event_forwarding (axis : Axis) (db : Rectangle) (cursor : Cursor)
    (drag : Bool) (ev : Event) (s1 s2 : Status) :
    (Split.on_event axis db cursor drag ev s1 s2).trace =
      Split.Action.toFirst ev ::
        ((Split.dividerOnEvent axis db cursor drag ev).2.map Split.Action.publish
          ++ [Split.Action.toSecond ev]) ∧
    (Split.on_event axis db cursor drag ev s1 s2).status = s1.merge s2 ∧
    (Split.on_event axis db cursor drag ev Status.ignored Status.ignored).status =
      Status.ignored :=
  ⟨rfl, rfl, rfl⟩

/-- Claim C3 (corrected): counterexample to the claim as stated.  With an
unavailable cursor (so there is no cursor position at all) and a divider
whose bounds contain the origin, a left press still starts the drag,
because the code substitutes Point::default() for the missing position. -/
theorem split_drag_start_unavailable_cursor_counterexample :
    ¬ ((Split.on_event .horizontal ⟨0, 0, 10, 10⟩ (none : Cursor) false
          (.buttonPressed .left) .ignored .ignored).dragging = true →
        ∃ q : Point, (none : Cursor) = some q ∧ Rectangle.contains ⟨0, 0, 10, 10⟩ q) := by
  intro h
  have hc : Rectangle.contains ⟨0, 0, 10, 10⟩ ((none : Cursor).getD Point.origin) := by
    norm_num [Rectangle.contains, Point.origin]
  have hdrag : (Split.on_event .horizontal ⟨0, 0, 10, 10⟩ (none : Cursor) false
      (.buttonPressed .left) .ignored .ignored).dragging = true := by
    simp only [Split.on_event, Split.dividerOnEvent]
    rw [if_pos hc]
  obtain ⟨q, hq, _⟩ := h hdrag
  exact Option.noConfusion hq

/-- Claim C3 (corrected, amended): starting from a non-dragging state the
dragging flag becomes true only on a left mouse press or finger press for
which the cursor position, defaulting to the origin when the cursor is
unavailable, lies inside the divider bounds; while dragging, every cursor
move or finger move publishes exactly one resize message carrying the u16
cast of the move coordinate along the split axis; a left release or
finger lift leaves dragging false. -/
theorem split_drag_protocol (axis : Axis) (db : Rectangle) (cursor : Cursor)
    (drag : Bool) (ev : Event) (s1 s2 : Status) :
    (drag = false → (Split.on_event axis db cursor drag ev s1 s2).dragging = true →
      ((ev = .buttonPressed .left ∨ ∃ q, ev = .fingerPressed q) ∧
        db.contains (cursor.getD Point.origin))) ∧
    (∀ q : Point, drag = true → (ev = .cursorMoved q ∨ ev = .fingerMoved q) →
      (Split.on_event axis db cursor drag ev s1 s2).trace =
        [.toFirst ev, .publish (ratToU16 (coordAlong axis q)), .toSecond ev]) ∧
    ((ev = .buttonReleased .left ∨ ∃ q, ev = .fingerLifted q) →
      (Split.on_event axis db cursor drag ev s1 s2).dragging = false) := by
  refine ⟨?_, ?_, ?_⟩
  · intro hd hres
    subst hd
    exact Split.dividerOnEvent_start axis db cursor ev hres
  · intro q hd hev
    subst hd
    show Split.Action.toFirst ev ::
        ((Split.dividerOnEvent axis db cursor true ev).2.map Split.Action.publish
          ++ [Split.Action.toSecond ev]) = _
    rw [Split.dividerOnEvent_move axis db cursor q ev hev]
    rfl
  · intro hev
    exact Split.dividerOnEvent_release axis db cursor drag ev hev

/-- Witness for the claim C3 theorem at concrete inputs: a finger move at
(7, 3) during a horizontal drag publishes exactly the resize message 3. -/
theorem split_drag_protocol_witness :
    (true : Bool) = true ∧
    (Split.on_event .horizontal ⟨0, 0, 10, 10⟩ (some ⟨5, 5⟩) true
        (.fingerMoved ⟨7, 3⟩) .ignored .ignored).trace =
      [.toFirst (.fingerMoved ⟨7, 3⟩), .publish (ratToU16 (coordAlong .horizontal ⟨7, 3⟩)),
       .toSecond (.fingerMoved ⟨7, 3⟩)] :=
  ⟨rfl, (split_drag_protocol .horizontal ⟨0, 0, 10, 10⟩ (some ⟨5, 5⟩) true
      (.fingerMoved ⟨7, 3⟩) .ignored .ignored).2.1 ⟨7, 3⟩ rfl (Or.inr rfl)⟩

/-- Claim C9 (corrected): counterexample to the claim as stated.  A
finger press whose own position (100, 100) is far outside the divider
bounds still starts the drag, because the code tests the mouse cursor
position (5, 5) instead of the finger position. -/
theorem split_drag_start_finger_position_counterexample :
    (Split.on_event .horizontal ⟨0, 0, 10, 10⟩ (some ⟨5, 5⟩) false
        (.fingerPressed ⟨100, 100⟩) .ignored .ignored).dragging = true ∧
      ¬ Rectangle.contains ⟨0, 0, 10, 10⟩ ⟨100, 100⟩ := by
  constructor
  · have hc : Rectangle.contains ⟨0, 0, 10, 10⟩ ((some ⟨5, 5⟩ : Cursor).getD Point.origin) := by
      norm_num [Rectangle.contains]
    simp only [Split.on_event, Split.dividerOnEvent]
    rw [if_pos hc]
  · intro h
    rcases h with ⟨-, h2, -, -⟩
    norm_num at h2

/-- Claim C9 (corrected, amended): after a left release or finger lift
the dragging flag is always false, regardless of the prior flag and of
the cursor; and the flag transitions from false to true only on a left
press or finger press for which the cursor position, defaulting to the
origin when unavailable, lies inside the divider bounds (the position
carried by the finger event itself is not consulted). -/
theorem split_drag_invariant (axis : Axis) (db : Rectangle) (cursor : Cursor)
    (drag : Bool) (ev : Event) (s1 s2 : Status) :
    ((ev = .buttonReleased .left ∨ ∃ q, ev = .fingerLifted q) →
      (Split.on_event axis db cursor drag ev s1 s2).dragging = false) ∧
    (drag = false → (Split.on_event axis db cursor drag ev s1 s2).dragging = true →
      ((ev = .buttonPressed .left ∨ ∃ q, ev = .fingerPressed q) ∧
        db.contains (cursor.getD Point.origin))) := by
  constructor
  · intro hev
    exact Split.dividerOnEvent_release axis db cursor drag ev hev
  · intro hd hres
    subst hd
    exact Split.dividerOnEvent_start axis db cursor ev hres

/-- Witness for the claim C9 theorem at concrete inputs: a left release
during a drag clears the dragging flag. -/
theorem split_drag_invariant_witness :
    (Split.on_event .vertical ⟨0, 0, 10, 10⟩ (some ⟨5, 5⟩) true
        (.buttonReleased .left) .ignored .ignored).dragging = false :=
  (split_drag_invariant .vertical ⟨0, 0, 10, 10⟩ (some ⟨5, 5⟩) true
      (.buttonReleased .left) .ignored .ignored).1 (Or.inl rfl)

/-- Cancellation of the truncated half-spacing: the value the divider
arithmetic subtracts right after having raised the position to it. -/
lemma sub16_max_cancel (m s2 : ℕ) (hm : m ≤ 65535) (hs : s2 ≤ 65535) :
    sub16 (max m s2) s2 = m - s2 := by
  rcases le_total m s2 with h | h
  · rw [max_eq_right h, sub16_eq _ _ le_rfl (by omega)]
    omega
  · rw [max_eq_left h, sub16_eq _ _ h (by omega)]

/-- Closed form of the divider position computed by the two split
functions above the size threshold, as a function of the container size h
along the axis: the supplied position (or the truncated midpoint when
unset), raised to the truncated half-spacing, lowered by it again, and
clamped into the truncated valid range.  This names the right-hand side
of the core lemmas below. -/
def Split.mainDividerPosition (p : Split.Params) (h : ℚ) : ℕ :=
  max p.minSizeFirst (min
    (sub16 (max (p.dividerPosition.getD (ratToU16 (h / 2))) (ratToU16 (p.spacing / 2)))
      (ratToU16 (p.spacing / 2)))
    (ratToU16 h - p.minSizeSecond - ratToU16 p.spacing))

/-- Core lemma for horizontal_split above the size threshold: the layout
succeeds and the divider sits at the computed u16 divider position. -/
lemma horizontal_split_main (p : Split.Params) (fL sL : Limits → Node) (limits : Limits)
    (space : Node) (hsp : 0 ≤ p.spacing)
    (hge : p.spacing + p.minSizeFirst + p.minSizeSecond ≤ space.bounds.height)
    (hlt : space.bounds.height < 65536) :
    (Split.horizontal_split p fL sL limits space).bind (Split.dividerCoord .horizontal) =
      some ((Split.mainDividerPosition p space.bounds.height : ℕ) : ℚ) := by
  have hth := threshold_le p.spacing space.bounds.height p.minSizeFirst p.minSizeSecond
    hsp hge hlt
  have hle_h := ratToU16_le space.bounds.height
  have hwrap : wrap16 (p.minSizeFirst + p.minSizeSecond) =
      p.minSizeFirst + p.minSizeSecond := by
    unfold wrap16; omega
  have hguard : ¬ (space.bounds.height < p.spacing +
      ((wrap16 (p.minSizeFirst + p.minSizeSecond) : ℕ) : ℚ)) := by
    rw [hwrap]
    push_cast
    linarith
  have hsub1 : sub16 (ratToU16 space.bounds.height) p.minSizeSecond =
      ratToU16 space.bounds.height - p.minSizeSecond := by
    apply sub16_eq <;> omega
  have hsub2 : sub16 (ratToU16 space.bounds.height - p.minSizeSecond) (ratToU16 p.spacing) =
      ratToU16 space.bounds.height - p.minSizeSecond - ratToU16 p.spacing := by
    apply sub16_eq <;> omega
  have hmf : p.minSizeFirst ≤
      ratToU16 space.bounds.height - p.minSizeSecond - ratToU16 p.spacing := by
    omega
  unfold Split.horizontal_split
  rw [if_neg hguard]
  dsimp only
  rw [hsub1, hsub2, clampU16_eq _ _ _ hmf]
  simp [Split.dividerCoord, coordAlong, Node.withChildren, Node.moveTo, Node.new,
    Split.mainDividerPosition]

/-- Core lemma for vertical_split above the size threshold, the mirror
image of the horizontal case along the x axis. -/
lemma vertical_split_main (p : Split.Params) (fL sL : Limits → Node) (limits : Limits)
    (space : Node) (hsp : 0 ≤ p.spacing)
    (hge : p.spacing + p.minSizeFirst + p.minSizeSecond ≤ space.bounds.width)
    (hlt : space.bounds.width < 65536) :
    (Split.vertical_split p fL sL limits space).bind (Split.dividerCoord .vertical) =
      some ((Split.mainDividerPosition p space.bounds.width : ℕ) : ℚ) := by
  have hth := threshold_le p.spacing space.bounds.width p.minSizeFirst p.minSizeSecond
    hsp hge hlt
  have hle_h := ratToU16_le space.bounds.width
  have hwrap : wrap16 (p.minSizeFirst + p.minSizeSecond) =
      p.minSizeFirst + p.minSizeSecond := by
    unfold wrap16; omega
  have hguard : ¬ (space.bounds.width < p.spacing +
      ((wrap16 (p.minSizeFirst + p.minSizeSecond) : ℕ) : ℚ)) := by
    rw [hwrap]
    push_cast
    linarith
  have hsub1 : sub16 (ratToU16 space.bounds.width) p.minSizeSecond =
      ratToU16 space.bounds.width - p.minSizeSecond := by
    apply sub16_eq <;> omega
  have hsub2 : sub16 (ratToU16 space.bounds.width - p.minSizeSecond) (ratToU16 p.spacing) =
      ratToU16 space.bounds.width - p.minSizeSecond - ratToU16 p.spacing := by
    apply sub16_eq <;> omega
  have hmf : p.minSizeFirst ≤
      ratToU16 space.bounds.width - p.minSizeSecond - ratToU16 p.spacing := by
    omega
  unfold Split.vertical_split
  rw [if_neg hguard]
  dsimp only
  rw [hsub1, hsub2, clampU16_eq _ _ _ hmf]
  simp [Split.dividerCoord, coordAlong, Node.withChildren, Node.moveTo, Node.new,
    Split.mainDividerPosition]

/-- Bounds of the computed divider position: it lies inside the truncated
valid range whenever the threshold holds. -/
lemma mainDividerPosition_bounds (p : Split.Params) (h : ℚ)
    (hmf : p.minSizeFirst ≤ ratToU16 h - p.minSizeSecond - ratToU16 p.spacing) :
    p.minSizeFirst ≤ Split.mainDividerPosition p h ∧
      Split.mainDividerPosition p h ≤ ratToU16 h - p.minSizeSecond - ratToU16 p.spacing := by
  unfold Split.mainDividerPosition
  exact ⟨le_max_left _ _, max_le hmf (min_le_right _ _)⟩

/-- Claim C2 (corrected): counterexample to the claim as stated.  With
container size 100, spacing 5.9 and both minimum sizes 5, a supplied
divider position of 1000 is clamped to 90, which exceeds the claimed
upper bound 100 - 5 - 5.9 = 89.1; the code clamps against the
u16-truncated size and spacing, not the exact ones. -/
theorem split_divider_bounds_counterexample :
    (Split.layout ⟨some 1000, .horizontal, 0, 59/10, 5, 5⟩ (fun _ => Node.new ⟨1, 1⟩)
        (fun _ => Node.new ⟨1, 1⟩) ⟨⟨0, 0⟩, ⟨0, 0⟩⟩ (Node.withChildren ⟨40, 100⟩ [])).bind
      (Split.dividerCoord .horizontal) = some 90 ∧
    ¬ ((90 : ℚ) ≤ 100 - 5 - 59/10) := by
  constructor
  · have hbind := horizontal_split_main ⟨some 1000, .horizontal, 0, 59/10, 5, 5⟩
      (fun _ => Node.new ⟨1, 1⟩) (fun _ => Node.new ⟨1, 1⟩) ⟨⟨0, 0⟩, ⟨0, 0⟩⟩
      (Node.withChildren ⟨40, 100⟩ []) (by norm_num) (by norm_num [Node.withChildren])
      (by norm_num [Node.withChildren])
    have e2 : ratToU16 ((59 : ℚ) / 10 / 2) = 2 :=
      ratToU16_eq _ 2 (by norm_num) (by norm_num) (by norm_num)
    have e3 : ratToU16 ((100 : ℚ)) = 100 :=
      ratToU16_eq _ 100 (by norm_num) (by norm_num) (by norm_num)
    have e4 : ratToU16 ((59 : ℚ) / 10) = 5 :=
      ratToU16_eq _ 5 (by norm_num) (by norm_num) (by norm_num)
    rw [show (Node.withChildren (⟨40, 100⟩ : Size) []).bounds.height = (100 : ℚ) from rfl]
      at hbind
    rw [Split.mainDividerPosition] at hbind
    simp only [Option.getD_some] at hbind
    rw [e2, e3, e4] at hbind
    norm_num [sub16] at hbind
    show (Split.horizontal_split ⟨some 1000, .horizontal, 0, 59/10, 5, 5⟩
        (fun _ => Node.new ⟨1, 1⟩) (fun _ => Node.new ⟨1, 1⟩) ⟨⟨0, 0⟩, ⟨0, 0⟩⟩
        (Node.withChildren ⟨40, 100⟩ [])).bind (Split.dividerCoord .horizontal) = some 90
    exact hbind
  · norm_num

/-- Claim C2 (corrected, amended): above the threshold (container size
along the axis at least spacing + both minimum sizes) and with the
container size inside the u16 range, the layout succeeds and the divider
position lies within the u16-truncated valid range: at least
min_size_first, and at most the truncated size minus min_size_second
minus the truncated spacing. -/
theorem split_divider_bounds (p : Split.Params) (fL sL : Limits → Node) (limits : Limits)
    (space : Node) (hsp : 0 ≤ p.spacing)
    (hge : p.spacing + p.minSizeFirst + p.minSizeSecond ≤ Split.sizeAlong p.axis space)
    (hlt : Split.sizeAlong p.axis space < 65536) :
    ∃ (n : Node) (dp : ℕ), Split.layout p fL sL limits space = some n ∧
      Split.dividerCoord p.axis n = some (dp : ℚ) ∧
      p.minSizeFirst ≤ dp ∧
      dp + p.minSizeSecond + ratToU16 p.spacing ≤ ratToU16 (Split.sizeAlong p.axis space) := by
  cases hax : p.axis with
  | horizontal =>
    rw [hax] at hge hlt
    simp only [Split.sizeAlong] at hge hlt ⊢
    have hth := threshold_le p.spacing space.bounds.height p.minSizeFirst p.minSizeSecond
      hsp hge hlt
    obtain ⟨n, hn, hd⟩ := Option.bind_eq_some.mp
      (horizontal_split_main p fL sL limits space hsp hge hlt)
    have hmf : p.minSizeFirst ≤
        ratToU16 space.bounds.height - p.minSizeSecond - ratToU16 p.spacing := by omega
    obtain ⟨hlo, hhi⟩ := mainDividerPosition_bounds p space.bounds.height hmf
    refine ⟨n, _, ?_, hd, hlo, by omega⟩
    simp only [Split.layout, hax]
    exact hn
  | vertical =>
    rw [hax] at hge hlt
    simp only [Split.sizeAlong] at hge hlt ⊢
    have hth := threshold_le p.spacing space.bounds.width p.minSizeFirst p.minSizeSecond
      hsp hge hlt
    obtain ⟨n, hn, hd⟩ := Option.bind_eq_some.mp
      (vertical_split_main p fL sL limits space hsp hge hlt)
    have hmf : p.minSizeFirst ≤
        ratToU16 space.bounds.width - p.minSizeSecond - ratToU16 p.spacing := by omega
    obtain ⟨hlo, hhi⟩ := mainDividerPosition_bounds p space.bounds.width hmf
    refine ⟨n, _, ?_, hd, hlo, by omega⟩
    simp only [Split.layout, hax]
    exact hn

/-- Witness for the claim C2 theorem at concrete inputs: container 100,
spacing 5, minimum sizes 5, supplied divider position 70. -/
theorem split_divider_bounds_witness :
    ((5 : ℚ) + 5 + 5 ≤ 100) ∧
    (∃ (n : Node) (dp : ℕ), Split.layout ⟨some 70, .horizontal, 0, 5, 5, 5⟩ (fun _ => Node.new ⟨1, 1⟩)
        (fun _ => Node.new ⟨1, 1⟩) ⟨⟨0, 0⟩, ⟨0, 0⟩⟩ (Node.withChildren ⟨40, 100⟩ []) = some n ∧
      Split.dividerCoord .horizontal n = some (dp : ℚ) ∧
      5 ≤ dp ∧
      dp + 5 + ratToU16 (5 : ℚ) ≤ ratToU16 (100 : ℚ)) :=
  ⟨by norm_num,
    split_divider_bounds ⟨some 70, .horizontal, 0, 5, 5, 5⟩ (fun _ => Node.new ⟨1, 1⟩)
      (fun _ => Node.new ⟨1, 1⟩) ⟨⟨0, 0⟩, ⟨0, 0⟩⟩ (Node.withChildren ⟨40, 100⟩ [])
      (by norm_num) (by norm_num [Split.sizeAlong, Node.withChildren])
      (by norm_num [Split.sizeAlong, Node.withChildren])⟩

/-- Value of the computed divider position when no divider position was
supplied: the truncated midpoint lowered by the truncated half-spacing,
clamped into the truncated valid range. -/
lemma mainDividerPosition_none (p : Split.Params) (h : ℚ)
    (hnone : p.dividerPosition = none) :
    Split.mainDividerPosition p h =
      max p.minSizeFirst (min (ratToU16 (h / 2) - ratToU16 (p.spacing / 2))
        (ratToU16 h - p.minSizeSecond - ratToU16 p.spacing)) := by
  unfold Split.mainDividerPosition
  rw [hnone]
  simp only [Option.getD_none]
  rw [sub16_max_cancel _ _ (ratToU16_le _) (ratToU16_le _)]

/-- Claim C6 (corrected): counterexample to the claim as stated.  With
container size 100, spacing 5 and no supplied divider position, the
divider lands at 48, not at the midpoint 50: the code subtracts the
truncated half-spacing from the truncated midpoint before clamping. -/
theorem split_default_midpoint_counterexample :
    (Split.layout ⟨none, .horizontal, 0, 5, 5, 5⟩ (fun _ => Node.new ⟨1, 1⟩)
        (fun _ => Node.new ⟨1, 1⟩) ⟨⟨0, 0⟩, ⟨0, 0⟩⟩ (Node.withChildren ⟨40, 100⟩ [])).bind
      (Split.dividerCoord .horizontal) = some 48 ∧
    (48 : ℚ) ≠ 100 / 2 := by
  constructor
  · have hbind := horizontal_split_main ⟨none, .horizontal, 0, 5, 5, 5⟩
      (fun _ => Node.new ⟨1, 1⟩) (fun _ => Node.new ⟨1, 1⟩) ⟨⟨0, 0⟩, ⟨0, 0⟩⟩
      (Node.withChildren ⟨40, 100⟩ []) (by norm_num) (by norm_num [Node.withChildren])
      (by norm_num [Node.withChildren])
    have e1 : ratToU16 ((100 : ℚ) / 2) = 50 :=
      ratToU16_eq _ 50 (by norm_num) (by norm_num) (by norm_num)
    have e2 : ratToU16 ((5 : ℚ) / 2) = 2 :=
      ratToU16_eq _ 2 (by norm_num) (by norm_num) (by norm_num)
    have e3 : ratToU16 ((100 : ℚ)) = 100 :=
      ratToU16_eq _ 100 (by norm_num) (by norm_num) (by norm_num)
    have e4 : ratToU16 ((5 : ℚ)) = 5 :=
      ratToU16_eq _ 5 (by norm_num) (by norm_num) (by norm_num)
    rw [show (Node.withChildren (⟨40, 100⟩ : Size) []).bounds.height = (100 : ℚ) from rfl]
      at hbind
    rw [Split.mainDividerPosition] at hbind
    simp only [Option.getD_none] at hbind
    rw [e1, e2, e3, e4] at hbind
    norm_num [sub16] at hbind
    show (Split.horizontal_split ⟨none, .horizontal, 0, 5, 5, 5⟩
        (fun _ => Node.new ⟨1, 1⟩) (fun _ => Node.new ⟨1, 1⟩) ⟨⟨0, 0⟩, ⟨0, 0⟩⟩
        (Node.withChildren ⟨40, 100⟩ [])).bind (Split.dividerCoord .horizontal) = some 48
    exact hbind
  · norm_num

/-- Claim C6 (corrected, amended): above the threshold and inside the u16
range, an unset divider position defaults to the u16-truncated midpoint
of the container size along the axis, which is then lowered by the
truncated half-spacing and clamped into the valid range before use. -/
theorem split_default_divider (p : Split.Params) (fL sL : Limits → Node) (limits : Limits)
    (space : Node) (hnone : p.dividerPosition = none) (hsp : 0 ≤ p.spacing)
    (hge : p.spacing + p.minSizeFirst + p.minSizeSecond ≤ Split.sizeAlong p.axis space)
    (hlt : Split.sizeAlong p.axis space < 65536) :
    ∃ n : Node, Split.layout p fL sL limits space = some n ∧
      Split.dividerCoord p.axis n = some
        (((max p.minSizeFirst
          (min (ratToU16 (Split.sizeAlong p.axis space / 2) - ratToU16 (p.spacing / 2))
            (ratToU16 (Split.sizeAlong p.axis space) - p.minSizeSecond - ratToU16 p.spacing))
          : ℕ) : ℚ)) := by
  cases hax : p.axis with
  | horizontal =>
    rw [hax] at hge hlt
    simp only [Split.sizeAlong] at hge hlt ⊢
    obtain ⟨n, hn, hd⟩ := Option.bind_eq_some.mp
      (horizontal_split_main p fL sL limits space hsp hge hlt)
    rw [mainDividerPosition_none p space.bounds.height hnone] at hd
    refine ⟨n, ?_, hd⟩
    simp only [Split.layout, hax]
    exact hn
  | vertical =>
    rw [hax] at hge hlt
    simp only [Split.sizeAlong] at hge hlt ⊢
    obtain ⟨n, hn, hd⟩ := Option.bind_eq_some.mp
      (vertical_split_main p fL sL limits space hsp hge hlt)
    rw [mainDividerPosition_none p space.bounds.width hnone] at hd
    refine ⟨n, ?_, hd⟩
    simp only [Split.layout, hax]
    exact hn

/-- Witness for the claim C6 theorem at concrete inputs: container 100,
spacing 5, minimum sizes 5, no supplied divider position. -/
theorem split_default_divider_witness :
    ((5 : ℚ) + 5 + 5 ≤ 100) ∧
    (∃ n : Node, Split.layout ⟨none, .vertical, 0, 5, 5, 5⟩ (fun _ => Node.new ⟨1, 1⟩)
        (fun _ => Node.new ⟨1, 1⟩) ⟨⟨0, 0⟩, ⟨0, 0⟩⟩ (Node.withChildren ⟨100, 40⟩ []) = some n ∧
      Split.dividerCoord .vertical n = some
        (((max 5 (min (ratToU16 ((100 : ℚ) / 2) - ratToU16 ((5 : ℚ) / 2))
            (ratToU16 (100 : ℚ) - 5 - ratToU16 (5 : ℚ)))
          : ℕ) : ℚ))) :=
  ⟨by norm_num,
    split_default_divider ⟨none, .vertical, 0, 5, 5, 5⟩ (fun _ => Node.new ⟨1, 1⟩)
      (fun _ => Node.new ⟨1, 1⟩) ⟨⟨0, 0⟩, ⟨0, 0⟩⟩ (Node.withChildren ⟨100, 40⟩ []) rfl
      (by norm_num) (by norm_num [Split.sizeAlong, Node.withChildren])
      (by norm_num [Split.sizeAlong, Node.withChildren])⟩

/-- Claim C4 (corrected): counterexample to the claim as stated.  With
minimum sizes 60000 and 10000 (whose u16 sum wraps to 4464), a container
of size 30000 is below the threshold 5 + 60000 + 10000, yet the layout
panics: the wrapped guard sends the code into the clamping branch, where
clamp is called with lower bound 60000 above upper bound 19995. -/
theorem split_undersized_panic_counterexample :
    Split.layout ⟨none, .horizontal, 0, 5, 60000, 10000⟩ (fun _ => Node.new ⟨1, 1⟩)
        (fun _ => Node.new ⟨1, 1⟩) ⟨⟨0, 0⟩, ⟨0, 0⟩⟩ (Node.withChildren ⟨40, 30000⟩ []) = none ∧
    ((30000 : ℚ) < 5 + 60000 + 10000) := by
  refine ⟨?_, by norm_num⟩
  have e1 : ratToU16 ((30000 : ℚ) / 2) = 15000 :=
    ratToU16_eq _ 15000 (by norm_num) (by norm_num) (by norm_num)
  have e2 : ratToU16 ((5 : ℚ) / 2) = 2 :=
    ratToU16_eq _ 2 (by norm_num) (by norm_num) (by norm_num)
  have e3 : ratToU16 ((30000 : ℚ)) = 30000 :=
    ratToU16_eq _ 30000 (by norm_num) (by norm_num) (by norm_num)
  have e4 : ratToU16 ((5 : ℚ)) = 5 :=
    ratToU16_eq _ 5 (by norm_num) (by norm_num) (by norm_num)
  show Split.horizontal_split ⟨none, .horizontal, 0, 5, 60000, 10000⟩ (fun _ => Node.new ⟨1, 1⟩)
      (fun _ => Node.new ⟨1, 1⟩) ⟨⟨0, 0⟩, ⟨0, 0⟩⟩ (Node.withChildren ⟨40, 30000⟩ []) = none
  unfold Split.horizontal_split
  rw [if_neg (by norm_num [wrap16, Node.withChildren])]
  dsimp only
  rw [show (Node.withChildren (⟨40, 30000⟩ : Size) []).bounds.height = (30000 : ℚ) from rfl]
  rw [e1, e2, e3, e4]
  norm_num [sub16, clampU16]

/-- Claim C4 (corrected, amended): provided the two u16 minimum sizes do
not overflow when added (their sum is at most 65535), a container below
the threshold spacing + min_size_first + min_size_second makes the layout
take the stacking fallback: it does not panic and returns a node with
exactly three children (first pane, divider, second pane), skipping the
clamping step. -/
theorem split_undersized_stacks (p : Split.Params) (fL sL : Limits → Node) (limits : Limits)
    (space : Node) (hno : p.minSizeFirst + p.minSizeSecond ≤ 65535)
    (hlt : Split.sizeAlong p.axis space < p.spacing + p.minSizeFirst + p.minSizeSecond) :
    ∃ n : Node, Split.layout p fL sL limits space = some n ∧
      n.children.length = 3 ∧
      n = (match p.axis with
        | .horizontal => Split.horizontalStack p fL sL limits space
        | .vertical => Split.verticalStack p fL sL limits space) := by
  have hwrap : wrap16 (p.minSizeFirst + p.minSizeSecond) =
      p.minSizeFirst + p.minSizeSecond := by
    unfold wrap16; omega
  cases hax : p.axis with
  | horizontal =>
    rw [hax] at hlt
    simp only [Split.sizeAlong] at hlt
    have hguard : space.bounds.height < p.spacing +
        ((wrap16 (p.minSizeFirst + p.minSizeSecond) : ℕ) : ℚ) := by
      rw [hwrap]
      push_cast
      linarith
    refine ⟨Split.horizontalStack p fL sL limits space, ?_, ?_, rfl⟩
    · simp only [Split.layout, hax, Split.horizontal_split]
      rw [if_pos hguard]
    · simp [Split.horizontalStack, Node.withChildren]
  | vertical =>
    rw [hax] at hlt
    simp only [Split.sizeAlong] at hlt
    have hguard : space.bounds.width < p.spacing +
        ((wrap16 (p.minSizeFirst + p.minSizeSecond) : ℕ) : ℚ) := by
      rw [hwrap]
      push_cast
      linarith
    refine ⟨Split.verticalStack p fL sL limits space, ?_, ?_, rfl⟩
    · simp only [Split.layout, hax, Split.vertical_split]
      rw [if_pos hguard]
    · simp [Split.verticalStack, Node.withChildren]

/-- Witness for the claim C4 theorem at concrete inputs: a container of
size 10 below the threshold 5 + 5 + 5 stacks both panes. -/
theorem split_undersized_stacks_witness :
    ((5 : ℕ) + 5 ≤ 65535) ∧
    (∃ n : Node, Split.layout ⟨none, .vertical, 0, 5, 5, 5⟩ (fun _ => Node.new ⟨1, 1⟩)
        (fun _ => Node.new ⟨1, 1⟩) ⟨⟨0, 0⟩, ⟨0, 0⟩⟩ (Node.withChildren ⟨10, 40⟩ []) = some n ∧
      n.children.length = 3 ∧
      n = Split.verticalStack ⟨none, .vertical, 0, 5, 5, 5⟩ (fun _ => Node.new ⟨1, 1⟩)
        (fun _ => Node.new ⟨1, 1⟩) ⟨⟨0, 0⟩, ⟨0, 0⟩⟩ (Node.withChildren ⟨10, 40⟩ [])) :=
  ⟨by norm_num,
    split_undersized_stacks ⟨none, .vertical, 0, 5, 5, 5⟩ (fun _ => Node.new ⟨1, 1⟩)
      (fun _ => Node.new ⟨1, 1⟩) ⟨⟨0, 0⟩, ⟨0, 0⟩⟩ (Node.withChildren ⟨10, 40⟩ [])
      (by norm_num) (by norm_num [Split.sizeAlong, Node.withChildren])⟩

/-- Claim C1 (corrected): counterexample to the claim as stated.  With
show set, a layout call is still answered by the underlay (a node of
width 1 here), not by the overlay content (width 2): layout is never
routed to the overlay content. -/
theorem contextMenu_layout_routing_counterexample :
    ContextMenu.layout ⟨true, Point.origin⟩ (fun _ => Node.new ⟨1, 1⟩)
        (fun _ => Node.new ⟨2, 2⟩) ⟨⟨0, 0⟩, ⟨0, 0⟩⟩ ≠
      (fun _ : Limits => Node.new ⟨2, 2⟩) ⟨⟨0, 0⟩, ⟨0, 0⟩⟩ := by
  intro h
  have hw := congrArg (fun n => n.bounds.width) h
  simp only [ContextMenu.layout, Node.new] at hw
  norm_num at hw

/-- Claim C1 (corrected, amended): operate calls are routed to the
overlay content exactly while show is true and to the underlay otherwise;
layout and draw calls are always routed to the underlay subtree (state
child 0), whatever the value of show. -/
theorem contextMenu_routing {α : Type} (s : ContextMenu.State)
    (f g : Limits → Node) (l : Limits) (a b : α) :
    ContextMenu.layout s f g l = f l ∧
    ContextMenu.draw s a b = a ∧
    ContextMenu.operate s a b = (if s.showMenu then b else a) :=
  ⟨rfl, rfl, rfl⟩

/-- Claim C5 (confirmed): a right mouse press with the cursor over the
widget bounds toggles show exactly once, records the cursor position, and
returns Captured, for either prior value of show. -/
theorem contextMenu_right_press_toggles (s : ContextMenu.State) (bounds : Rectangle)
    (cursor : Cursor) (p : Point) (us : Status) (hp : cursor = some p)
    (hover : bounds.contains p) :
    (ContextMenu.on_event s bounds cursor (.buttonPressed .right) us).state.showMenu
        = !s.showMenu ∧
    (ContextMenu.on_event s bounds cursor (.buttonPressed .right) us).state.cursorPosition
        = p ∧
    (ContextMenu.on_event s bounds cursor (.buttonPressed .right) us).status
        = Status.captured := by
  subst hp
  have hcond : (Event.buttonPressed .right) = Event.buttonPressed MouseButton.right ∧
      cursorIsOver (some p) bounds = true := ⟨rfl, by simp [cursorIsOver, hover]⟩
  unfold ContextMenu.on_event
  rw [if_pos hcond]
  exact ⟨rfl, rfl, rfl⟩

/-- Witness for the claim C5 theorem: a right press at (1, 2) over the
bounds (0, 0, 10, 10) toggles show from false to true and captures. -/
theorem contextMenu_right_press_toggles_witness :
    (some ⟨1, 2⟩ : Cursor) = some ⟨1, 2⟩ ∧
    Rectangle.contains ⟨0, 0, 10, 10⟩ ⟨1, 2⟩ ∧
    (ContextMenu.on_event ⟨false, Point.origin⟩ ⟨0, 0, 10, 10⟩ (some ⟨1, 2⟩)
        (.buttonPressed .right) .ignored).state.showMenu = !false :=
  ⟨rfl, by norm_num [Rectangle.contains],
    (contextMenu_right_press_toggles ⟨false, Point.origin⟩ ⟨0, 0, 10, 10⟩
      (some ⟨1, 2⟩) ⟨1, 2⟩ .ignored rfl (by norm_num [Rectangle.contains])).1⟩

/-- Claim C7 (confirmed): with show true the overlay call produces the
context menu overlay at the recorded cursor position translated by the
host-supplied vector; with show false it delegates to the underlay
overlay. -/
theorem contextMenu_overlay_position {α : Type} (s : ContextMenu.State)
    (t : Vector) (uo : Option α) :
    ContextMenu.overlay s t uo =
      if s.showMenu then some (ContextMenu.OverlayChoice.menuAt (s.cursorPosition.addV t))
      else uo.map ContextMenu.OverlayChoice.fromUnderlay := by
  cases hs : s.showMenu <;> simp [ContextMenu.overlay, hs]

/-- Claim C8 (confirmed): any event other than a right press with the
cursor over the bounds is forwarded unchanged to the underlay, leaves the
state untouched, and the underlay status is returned. -/
theorem contextMenu_pass_through (s : ContextMenu.State) (bounds : Rectangle)
    (cursor : Cursor) (ev : Event) (us : Status)
    (h : ¬(ev = Event.buttonPressed MouseButton.right ∧ cursorIsOver cursor bounds = true)) :
    ContextMenu.on_event s bounds cursor ev us = ⟨s, some ev, us⟩ := by
  unfold ContextMenu.on_event
  rw [if_neg h]

/-- Witness for the claim C8 theorem: a cursor move passes through with
the state unchanged and the underlay status returned. -/
theorem contextMenu_pass_through_witness :
    ¬((Event.cursorMoved ⟨3, 4⟩) = Event.buttonPressed MouseButton.right ∧
        cursorIsOver (some ⟨3, 4⟩) ⟨0, 0, 10, 10⟩ = true) ∧
    ContextMenu.on_event ⟨true, ⟨1, 1⟩⟩ ⟨0, 0, 10, 10⟩ (some ⟨3, 4⟩)
        (.cursorMoved ⟨3, 4⟩) .captured = ⟨⟨true, ⟨1, 1⟩⟩, some (.cursorMoved ⟨3, 4⟩), .captured⟩ :=
  ⟨fun h => Event.noConfusion h.1,
    contextMenu_pass_through ⟨true, ⟨1, 1⟩⟩ ⟨0, 0, 10, 10⟩ (some ⟨3, 4⟩)
      (.cursorMoved ⟨3, 4⟩) .captured (fun h => Event.noConfusion h.1)⟩

end IcedAw
